import Mathlib

/-!
# Verification of the Landsat GIF animator core (`animate.py`)

Shallow embedding of the pure logic of `LandsatAnimator`:

* `get_monthly_images` — the monthly best-scene selection
  (`animate.py`, lines 216–260);
* `VISUALIZATION_MODES` / `apply_visualization` — the static recipe table and
  the visualization dispatch (lines 24–67 and 262–296), together with the
  `VISUALIZATION_MODES[mode]['description']` lookup performed by
  `generate_animation` (line 370);
* `scale_landsat_c2` — the Collection-2 surface-reflectance scaling
  (lines 175–189);
* `get_coordinates` — coordinate parsing with geocoding fallback
  (lines 113–142);
* `calculate_region` — the cosine-compensated bounding rectangle
  (lines 144–173).

Numbers that are Python floats with exact decimal literals are embedded as
rationals (`ℚ`); the one genuinely transcendental computation (`np.cos` in
`calculate_region`) is embedded over the reals.
-/

/-- A Landsat scene, as the selector sees it: the acquisition date (the
`system:time_start` timestamp converted by `datetime.utcfromtimestamp` to a
UTC calendar date, kept here as year/month/day fields), the `CLOUD_COVER`
metadata value, and a numeric identifier standing for the Earth Engine image
handle `images_list.get(i)`. -/
structure Scene where
  year : Nat
  month : Nat
  day : Nat
  cloud : ℚ
  id : Nat
deriving DecidableEq, Repr

/-- Zero-pad the decimal representation of `n` to width `w`, as `strftime`
does for `%Y` (width 4) and `%m` (width 2). -/
def padZ (w : Nat) (n : Nat) : String :=
  let s := toString n
  if s.length < w then String.mk (List.replicate (w - s.length) '0') ++ s else s

/-- The month key of a scene, `date_obj.strftime('%Y-%m')` (line 245). -/
def monthKey (s : Scene) : String :=
  padZ 4 s.year ++ "-" ++ padZ 2 s.month

/-- Association-list lookup with string keys; first binding wins, as in a
Python dict read. -/
def alookup {β : Type} : List (String × β) → String → Option β
  | [], _ => none
  | p :: rest, k => if p.1 = k then some p.2 else alookup rest k

/-- Overwrite the value stored under an existing key, keeping its position,
as Python dict assignment does for a present key. -/
def updateEntry {β : Type} (d : List (String × β)) (k : String) (v : β) :
    List (String × β) :=
  d.map fun p => if p.1 = k then (k, v) else p

/-- One iteration of the loop at lines 241–255: insert the scene under its
month key when the key is absent, replace the stored entry when the new
scene's cloud cover is strictly lower, and otherwise leave the dict alone.
The dict is a `List (String × Scene)` in insertion order, mirroring a Python
dict. -/
def monthlyStep (d : List (String × Scene)) (s : Scene) : List (String × Scene) :=
  match alookup d (monthKey s) with
  | none => d ++ [(monthKey s, s)]
  | some e => if s.cloud < e.cloud then updateEntry d (monthKey s) s else d

/-- The `monthly_images` dict after the whole loop at lines 241–255. -/
def buildMonthly (l : List Scene) : List (String × Scene) :=
  l.foldl monthlyStep []

/-- Lexicographic order on strings seen as lists of code points: exactly the
comparison Python's `str` order performs inside `sorted` at line 258.  Bool
valued and structurally recursive so that it evaluates on concrete keys. -/
def charListLe : List Char → List Char → Bool
  | [], _ => true
  | _ :: _, [] => false
  | a :: as, b :: bs => if a = b then charListLe as bs else decide (a.toNat < b.toNat)

/-- Strict variant of `charListLe`. -/
def charListLt : List Char → List Char → Bool
  | [], [] => false
  | [], _ :: _ => true
  | _ :: _, [] => false
  | a :: as, b :: bs => if a = b then charListLt as bs else decide (a.toNat < b.toNat)

/-- Python's `s <= t` on strings: code-point lexicographic order. -/
def strLe (s t : String) : Bool := charListLe s.toList t.toList

/-- Python's `s < t` on strings: strict code-point lexicographic order. -/
def strLt (s t : String) : Bool := charListLt s.toList t.toList

/-- The sort key comparison of line 258 (`sorted(..., key=lambda x: x['date'])`)
on dict entries. -/
abbrev keyLE (p q : String × Scene) : Prop := strLe p.1 q.1 = true

instance : DecidableRel keyLE := fun p q =>
  inferInstanceAs (Decidable (strLe p.1 q.1 = true))

/-- Definition of `get_monthly_images` (lines 216–260): build the per-month dict, then sort
its entries by month key (line 258).  The result keeps each entry as a
`(month key, scene)` pair, the pure content of the per-month dicts (image,
date, cloud cover) the Python code returns. -/
def get_monthly_images (l : List Scene) : List (String × Scene) :=
  List.insertionSort keyLE (buildMonthly l)

/-- The two shapes the `'bands'` entry of a visualization recipe takes in
`VISUALIZATION_MODES` (lines 24–67): an ordered list of band names for the
band-selection recipes, or a name→band mapping for the expression recipes. -/
inductive BandSpec where
  | sel (names : List String)
  | named (assoc : List (String × String))
deriving DecidableEq, Repr

/-- One entry of `VISUALIZATION_MODES`: the optional `'expression'` and
`'palette'` keys, the `'bands'` value, the `'min'`/`'max'` display range and
the `'description'` text. -/
structure VisConfig where
  expression : Option String
  bands : BandSpec
  palette : Option (List String)
  minV : ℚ
  maxV : ℚ
  description : String
deriving DecidableEq, Repr

/-- The `'rgb'` entry of `VISUALIZATION_MODES` (lines 25–30); it is also the
value `self.VISUALIZATION_MODES['rgb']` that `apply_visualization` uses as the
fallback for an unknown mode name (line 273). -/
def rgbConfig : VisConfig :=
  ⟨none, .sel ["SR_B4", "SR_B3", "SR_B2"], none, 0, 0.3, "Natural color (RGB)"⟩

/-- The static recipe table `LandsatAnimator.VISUALIZATION_MODES`
(lines 24–67), in source order. -/
def VISUALIZATION_MODES : List (String × VisConfig) :=
  [("rgb", rgbConfig),
   ("false_color",
     ⟨none, .sel ["SR_B5", "SR_B4", "SR_B3"], none, 0, 0.3,
      "False color infrared"⟩),
   ("ndvi",
     ⟨some "(NIR - RED) / (NIR + RED)", .named [("NIR", "SR_B5"), ("RED", "SR_B4")],
      some ["blue", "white", "green"], -1, 1,
      "Normalized Difference Vegetation Index"⟩),
   ("panchromatic",
     ⟨none, .sel ["SR_B8"], none, 0, 0.3, "Panchromatic (grayscale)"⟩),
   ("built_up",
     ⟨some "(SWIR - NIR) / (SWIR + NIR)", .named [("SWIR", "SR_B6"), ("NIR", "SR_B5")],
      some ["white", "yellow", "red"], -1, 1, "Built-up index"⟩),
   ("snow",
     ⟨some "(GREEN - SWIR) / (GREEN + SWIR)", .named [("GREEN", "SR_B3"), ("SWIR", "SR_B6")],
      some ["black", "cyan", "white"], -1, 1,
      "Normalized Difference Snow Index"⟩)]

/-- The render descriptor `apply_visualization` produces: either
`image.expression(...)` followed by `.visualize(min, max, palette)`, or a bare
`image.expression(...)` when the recipe has no palette, or
`image.select(bands).visualize(min, max)`. -/
inductive RenderResult where
  | exprVisualized (expr : String) (bands : BandSpec) (minV maxV : ℚ)
      (palette : List String)
  | exprRaw (expr : String) (bands : BandSpec)
  | bandsVisualized (bands : BandSpec) (minV maxV : ℚ)
deriving DecidableEq, Repr

/-- Definition of `apply_visualization` (lines 262–296).  The recipe is fetched with
`VISUALIZATION_MODES.get(mode, VISUALIZATION_MODES['rgb'])`, so an unknown
mode silently falls back to the `'rgb'` recipe; then the code branches on the
presence of `'expression'` and `'palette'`. -/
def apply_visualization (mode : String) : RenderResult :=
  let vis_config := (alookup VISUALIZATION_MODES mode).getD rgbConfig
  match vis_config.expression with
  | some e =>
    match vis_config.palette with
    | some p => .exprVisualized e vis_config.bands vis_config.minV vis_config.maxV p
    | none => .exprRaw e vis_config.bands
  | none => .bandsVisualized vis_config.bands vis_config.minV vis_config.maxV

/-- The `self.VISUALIZATION_MODES[mode]['description']` read performed by
`generate_animation` at line 370: a plain `[]` subscript, so an unknown mode
name raises `KeyError(mode)` there, modelled as `Except.error mode`. -/
def generate_animation_mode_description (mode : String) : Except String String :=
  match alookup VISUALIZATION_MODES mode with
  | some c => Except.ok c.description
  | none => Except.error mode

/-- A multispectral image as the scaling step sees it: an ordered association
of band names to (per-pixel) values. -/
abbrev EEImage := List (String × ℚ)

/-- Whether a band name matches the Earth Engine band selector `'SR_B.'`
(line 186): the literal prefix `SR_B` followed by exactly one character. -/
def isOpticalBand (name : String) : Bool :=
  name.startsWith "SR_B" && name.length == 5

/-- Model of `image.select('SR_B.')` (line 186): keep the bands whose names match the
selector, in their original order. -/
def selectOptical (image : EEImage) : EEImage :=
  image.filter fun p => isOpticalBand p.1

/-- Model of `image.addBands(newBands, None, True)` (line 189): with `overwrite=True`,
bands of `image` whose names occur in `newBands` are replaced in place; bands
of `newBands` absent from `image` are appended. -/
def addBandsOverwrite (image newBands : EEImage) : EEImage :=
  (image.map fun p =>
    match alookup newBands p.1 with
    | some v => (p.1, v)
    | none => p) ++
    newBands.filter fun q => !(image.any fun p => p.1 == q.1)

/-- Definition of `scale_landsat_c2` (lines 175–189): scale the optical surface-reflectance
bands by `0.0000275` with offset `-0.2` and write them back over the original
bands. -/
def scale_landsat_c2 (image : EEImage) : EEImage :=
  addBandsOverwrite image
    ((selectOptical image).map fun p => (p.1, p.2 * 0.0000275 + (-0.2)))

/-- Value of a digit string, most significant first. -/
def natOfDigits (cs : List Char) : Nat :=
  cs.foldl (fun n c => 10 * n + (c.toNat - '0'.toNat)) 0

/-- Implementation of `location.split(',')` (line 126), character by
character. -/
def splitCommaAux : List Char → List Char → List String
  | [], acc => [String.mk acc.reverse]
  | c :: rest, acc =>
    if c = ',' then String.mk acc.reverse :: splitCommaAux rest []
    else splitCommaAux rest (c :: acc)

/-- Model of `location.split(',')` (line 126). -/
def splitComma (s : String) : List String := splitCommaAux s.toList []

/-- Python `str.strip()` (lines 127–128): drop leading and trailing
whitespace. -/
def stripEnds (s : String) : String :=
  String.mk (((s.toList.dropWhile Char.isWhitespace).reverse.dropWhile
    Char.isWhitespace).reverse)

/-- Python `float(s)` on a plain decimal literal: optional sign, digits, and
an optional fractional part; anything else (including the empty string) raises
`ValueError`, modelled as `none`.  (The exotic inputs `float` also accepts —
exponents, `inf`, `nan`, underscores — do not occur in coordinate strings and
are left out.) -/
def parseFloat (s : String) : Option ℚ :=
  let cs := s.toList
  let sgn : ℚ × List Char :=
    match cs with
    | '-' :: rest => (-1, rest)
    | '+' :: rest => (1, rest)
    | _ => (1, cs)
  let ip := sgn.2.takeWhile Char.isDigit
  let r1 := sgn.2.dropWhile Char.isDigit
  match r1 with
  | [] => if ip.isEmpty then none else some (sgn.1 * natOfDigits ip)
  | '.' :: r2 =>
    let fp := r2.takeWhile Char.isDigit
    let r3 := r2.dropWhile Char.isDigit
    if r3.isEmpty then
      if ip.isEmpty && fp.isEmpty then none
      else some (sgn.1 * ((natOfDigits ip : ℚ) +
        (natOfDigits fp : ℚ) / (10 : ℚ) ^ fp.length))
    else none
  | _ => none

/-- The observable outcome of `get_coordinates`: either a pair parsed directly
from the `"lat,long"` string, or a delegation of the whole original string to
the external Nominatim geocoder. -/
inductive CoordResult where
  | parsed (lat lon : ℚ)
  | geocoded (query : String)
deriving DecidableEq, Repr

/-- Definition of `get_coordinates` (lines 113–142): when the location contains a comma, try
`float` on the first two stripped comma-separated parts and return them; a
`ValueError` from either `float` call is swallowed (lines 130–131) and the
whole original string is geocoded instead, as it is when no comma occurs.
(`parts[1]` exists whenever the string contains a comma, so no other error can
escape the `try`.) -/
def get_coordinates (location : String) : CoordResult :=
  if location.toList.any fun c => c = ',' then
    match parseFloat (stripEnds ((splitComma location).getD 0 "")),
        parseFloat (stripEnds ((splitComma location).getD 1 "")) with
    | some lat, some lon => .parsed lat lon
    | _, _ => .geocoded location
  else
    .geocoded location

/-- The rectangle `ee.Geometry.Rectangle([xmin, ymin, xmax, ymax])` built at
lines 168–173. -/
structure Rect where
  xmin : ℝ
  ymin : ℝ
  xmax : ℝ
  ymax : ℝ

/-- Definition of `calculate_region` (lines 144–173) over the reals: `np.radians(lat)` is
`lat * π / 180` and `np.cos` is `Real.cos`. -/
noncomputable def calculate_region (lat lon scale : ℝ) : Rect :=
  let meters_per_pixel := scale / 1000
  let width_meters := 1024 * meters_per_pixel
  let lat_degrees := width_meters / 111320
  let lon_degrees := width_meters / (111320 * Real.cos (lat * Real.pi / 180))
  ⟨lon - lon_degrees / 2, lat - lat_degrees / 2,
   lon + lon_degrees / 2, lat + lat_degrees / 2⟩

/-- Longitude-degree span of a bounding rectangle. -/
noncomputable def lonSpan (r : Rect) : ℝ := r.xmax - r.xmin

/-- Latitude-degree span of a bounding rectangle. -/
noncomputable def latSpan (r : Rect) : ℝ := r.ymax - r.ymin

theorem charToNat_inj {a b : Char} (h : a.toNat = b.toNat) : a = b := by
  apply Char.ext
  apply UInt32.ext
  simpa [Char.toNat] using h

theorem charListLe_total : ∀ a b, charListLe a b = true ∨ charListLe b a = true
  | [], _ => Or.inl rfl
  | _ :: _, [] => Or.inr rfl
  | a :: as, b :: bs => by
    by_cases hab : a = b
    · subst hab
      simpa [charListLe] using charListLe_total as bs
    · have hba : b ≠ a := fun h => hab h.symm
      have hne : a.toNat ≠ b.toNat := fun h => hab (charToNat_inj h)
      simp only [charListLe, if_neg hab, if_neg hba, decide_eq_true_eq]
      omega

theorem charListLe_trans :
    ∀ a b c, charListLe a b = true → charListLe b c = true → charListLe a c = true
  | [], _, _, _, _ => rfl
  | _ :: _, [], _, h1, _ => by simp [charListLe] at h1
  | _ :: _, _ :: _, [], _, h2 => by simp [charListLe] at h2
  | a :: as, b :: bs, c :: cs, h1, h2 => by
    by_cases hab : a = b
    · subst hab
      by_cases hac : a = c
      · subst hac
        simp only [charListLe, if_pos rfl] at h1 h2 ⊢
        exact charListLe_trans as bs cs h1 h2
      · simpa [charListLe, hac] using h2
    · have hnab : a.toNat ≠ b.toNat := fun h => hab (charToNat_inj h)
      simp only [charListLe, if_neg hab, decide_eq_true_eq] at h1
      by_cases hbc : b = c
      · subst hbc
        simp [charListLe, hab, h1]
      · have hnbc : b.toNat ≠ c.toNat := fun h => hbc (charToNat_inj h)
        simp only [charListLe, if_neg hbc, decide_eq_true_eq] at h2
        have hac : a ≠ c := by
          intro h
          subst h
          omega
        simp only [charListLe, if_neg hac, decide_eq_true_eq]
        omega

theorem charListLe_antisymm :
    ∀ a b, charListLe a b = true → charListLe b a = true → a = b
  | [], [], _, _ => rfl
  | [], _ :: _, _, h2 => by simp [charListLe] at h2
  | _ :: _, [], h1, _ => by simp [charListLe] at h1
  | a :: as, b :: bs, h1, h2 => by
    by_cases hab : a = b
    · subst hab
      simp only [charListLe, if_pos rfl] at h1 h2
      rw [charListLe_antisymm as bs h1 h2]
    · have hba : b ≠ a := fun h => hab h.symm
      simp only [charListLe, if_neg hab, if_neg hba, decide_eq_true_eq] at h1 h2
      omega

theorem charListLt_iff :
    ∀ a b, charListLt a b = true ↔ (charListLe a b = true ∧ a ≠ b)
  | [], [] => by simp [charListLt, charListLe]
  | [], _ :: _ => by simp [charListLt, charListLe]
  | _ :: _, [] => by simp [charListLt, charListLe]
  | a :: as, b :: bs => by
    by_cases hab : a = b
    · subst hab
      simpa [charListLt, charListLe] using charListLt_iff as bs
    · simp [charListLt, charListLe, hab]

theorem strLe_total (s t : String) : strLe s t = true ∨ strLe t s = true :=
  charListLe_total _ _

theorem strLe_trans {s t u : String} (h1 : strLe s t = true)
    (h2 : strLe t u = true) : strLe s u = true :=
  charListLe_trans _ _ _ h1 h2

theorem strLe_antisymm {s t : String} (h1 : strLe s t = true)
    (h2 : strLe t s = true) : s = t := by
  have := charListLe_antisymm _ _ h1 h2
  exact String.toList_inj.mp this

theorem strLt_iff (s t : String) :
    strLt s t = true ↔ (strLe s t = true ∧ s ≠ t) := by
  unfold strLt strLe
  rw [charListLt_iff]
  constructor
  · rintro ⟨h1, h2⟩
    exact ⟨h1, fun h => h2 (by rw [h])⟩
  · rintro ⟨h1, h2⟩
    exact ⟨h1, fun h => h2 (String.toList_inj.mp h)⟩

theorem keyLE_isTotal : IsTotal (String × Scene) keyLE :=
  ⟨fun p q => strLe_total p.1 q.1⟩

theorem keyLE_isTrans : IsTrans (String × Scene) keyLE :=
  ⟨fun _ _ _ h h' => strLe_trans h h'⟩

theorem alookup_eq_none {β : Type} :
    ∀ {d : List (String × β)} {k : String},
      alookup d k = none ↔ ∀ p ∈ d, p.1 ≠ k
  | [], _ => by simp [alookup]
  | p :: rest, k => by
    by_cases h : p.1 = k
    · simp [alookup, h]
    · simp [alookup, h, alookup_eq_none (d := rest)]

theorem alookup_mem {β : Type} :
    ∀ {d : List (String × β)} {k : String} {v : β},
      alookup d k = some v → (k, v) ∈ d
  | [], _, _, h => by simp [alookup] at h
  | (p1, p2) :: rest, k, v, h => by
    by_cases hk : p1 = k
    · simp only [alookup, if_pos hk, Option.some.injEq] at h
      rw [← hk, ← h]
      exact List.mem_cons_self _ _
    · simp only [alookup, if_neg hk] at h
      exact List.mem_cons_of_mem _ (alookup_mem h)

theorem mem_alookup {β : Type} :
    ∀ {d : List (String × β)} {k : String} {v : β},
      (d.map Prod.fst).Nodup → (k, v) ∈ d → alookup d k = some v
  | [], _, _, _, h => by simp at h
  | p :: rest, k, v, hnd, h => by
    rcases List.mem_cons.mp h with h | h
    · rw [← h]
      simp [alookup]
    · have hk : p.1 ≠ k := by
        intro he
        have : k ∈ rest.map Prod.fst := List.mem_map_of_mem Prod.fst h
        rw [List.map_cons, List.nodup_cons, he] at hnd
        exact hnd.1 this
      simp only [alookup, if_neg hk]
      exact mem_alookup (List.nodup_cons.mp (by simpa using hnd)).2 h

theorem alookup_append_some {β : Type} {d e : List (String × β)} {k : String}
    {v : β} (h : alookup d k = some v) : alookup (d ++ e) k = some v := by
  induction d with
  | nil => simp [alookup] at h
  | cons p rest ih =>
    by_cases hk : p.1 = k
    · simp only [alookup, if_pos hk, Option.some.injEq] at h
      simp [alookup, hk, h]
    · simp only [alookup, if_neg hk] at h
      simpa [alookup, hk] using ih h

theorem alookup_append_none {β : Type} {d e : List (String × β)} {k : String}
    (h : alookup d k = none) : alookup (d ++ e) k = alookup e k := by
  induction d with
  | nil => rfl
  | cons p rest ih =>
    by_cases hk : p.1 = k
    · simp [alookup, hk] at h
    · simp only [alookup, if_neg hk] at h
      simpa [alookup, hk] using ih h

theorem updateEntry_cons {β : Type} (p : String × β) (rest : List (String × β))
    (k : String) (v : β) :
    updateEntry (p :: rest) k v =
      (if p.1 = k then (k, v) else p) :: updateEntry rest k v := rfl

theorem alookup_updateEntry_self {β : Type} {d : List (String × β)}
    {k : String} (v : β) :
    alookup (updateEntry d k v) k = (alookup d k).map fun _ => v := by
  induction d with
  | nil => rfl
  | cons p rest ih =>
    rw [updateEntry_cons]
    by_cases hk : p.1 = k
    · rw [if_pos hk]
      simp [alookup, hk]
    · rw [if_neg hk]
      simp only [alookup, if_neg hk]
      exact ih

theorem alookup_updateEntry_ne {β : Type} {d : List (String × β)}
    {k k' : String} (v : β) (h : k' ≠ k) :
    alookup (updateEntry d k v) k' = alookup d k' := by
  induction d with
  | nil => rfl
  | cons p rest ih =>
    rw [updateEntry_cons]
    by_cases hk : p.1 = k
    · rw [if_pos hk]
      have hkk' : k ≠ k' := fun he => h he.symm
      have hpk' : p.1 ≠ k' := by rw [hk]; exact hkk'
      simp only [alookup, if_neg hkk', if_neg hpk']
      exact ih
    · rw [if_neg hk]
      by_cases hk' : p.1 = k'
      · simp [alookup, hk']
      · simp only [alookup, if_neg hk']
        exact ih

theorem alookup_monthlyStep_ne {d : List (String × Scene)} {a : Scene}
    {k : String} (h : monthKey a ≠ k) :
    alookup (monthlyStep d a) k = alookup d k := by
  unfold monthlyStep
  cases hd : alookup d (monthKey a) with
  | none =>
    cases he : alookup d k with
    | none =>
      rw [alookup_append_none he]
      simp [alookup, h]
    | some v => rw [alookup_append_some he]
  | some e =>
    by_cases hc : a.cloud < e.cloud
    · simp only [if_pos hc]
      exact alookup_updateEntry_ne a fun he => h he.symm
    · simp [if_neg hc]

theorem alookup_monthlyStep_none {d : List (String × Scene)} {a : Scene}
    {k : String} (h : monthKey a = k) (hd : alookup d k = none) :
    alookup (monthlyStep d a) k = some a := by
  unfold monthlyStep
  rw [h, hd, alookup_append_none hd]
  simp [alookup, h]

theorem alookup_monthlyStep_some {d : List (String × Scene)} {a e : Scene}
    {k : String} (h : monthKey a = k) (hd : alookup d k = some e) :
    alookup (monthlyStep d a) k =
      if a.cloud < e.cloud then some a else some e := by
  unfold monthlyStep
  rw [h, hd]
  by_cases hc : a.cloud < e.cloud
  · simp only [if_pos hc]
    rw [alookup_updateEntry_self, hd]
    rfl
  · simp [if_neg hc, hd]

theorem map_fst_updateEntry {β : Type} (d : List (String × β)) (k : String)
    (v : β) : (updateEntry d k v).map Prod.fst = d.map Prod.fst := by
  unfold updateEntry
  rw [List.map_map]
  apply List.map_congr_left
  intro p _
  by_cases hk : p.1 = k
  · simp [hk]
  · simp [hk]

theorem map_fst_monthlyStep_nodup {d : List (String × Scene)} {a : Scene}
    (hnd : (d.map Prod.fst).Nodup) :
    ((monthlyStep d a).map Prod.fst).Nodup := by
  unfold monthlyStep
  cases hd : alookup d (monthKey a) with
  | none =>
    have hout : monthKey a ∉ d.map Prod.fst := by
      intro hmem
      rcases List.mem_map.mp hmem with ⟨p, hp, hfst⟩
      exact alookup_eq_none.mp hd p hp hfst
    simp [List.nodup_append, hnd, hout]
  | some e =>
    by_cases hc : a.cloud < e.cloud
    · simpa [if_pos hc, map_fst_updateEntry] using hnd
    · simpa [if_neg hc] using hnd

theorem buildMonthly_append (l : List Scene) (a : Scene) :
    buildMonthly (l ++ [a]) = monthlyStep (buildMonthly l) a := by
  simp [buildMonthly, List.foldl_append]

theorem buildMonthly_nodup (l : List Scene) :
    ((buildMonthly l).map Prod.fst).Nodup := by
  induction l using List.reverseRecOn with
  | nil => simp [buildMonthly]
  | append_singleton l a ih =>
    rw [buildMonthly_append]
    exact map_fst_monthlyStep_nodup ih

theorem alookup_buildMonthly_eq_none {l : List Scene} {k : String} :
    alookup (buildMonthly l) k = none ↔ ∀ t ∈ l, monthKey t ≠ k := by
  induction l using List.reverseRecOn with
  | nil => simp [buildMonthly, alookup]
  | append_singleton l a ih =>
    rw [buildMonthly_append]
    by_cases hk : monthKey a = k
    · constructor
      · intro h
        cases hd : alookup (buildMonthly l) k with
        | none => rw [alookup_monthlyStep_none hk hd] at h; simp at h
        | some e =>
          rw [alookup_monthlyStep_some hk hd] at h
          by_cases hc : a.cloud < e.cloud <;> simp [hc] at h
      · intro h
        exact absurd hk (h a (by simp))
    · rw [alookup_monthlyStep_ne hk, ih]
      constructor
      · intro h t ht
        rcases List.mem_append.mp ht with ht | ht
        · exact h t ht
        · rw [List.mem_singleton.mp ht]; exact hk
      · intro h t ht
        exact h t (List.mem_append_left _ ht)

theorem alookup_buildMonthly_some {l : List Scene} {k : String} {s : Scene}
    (h : alookup (buildMonthly l) k = some s) :
    monthKey s = k ∧ (∀ t ∈ l, monthKey t = k → s.cloud ≤ t.cloud) ∧
      ∃ l₁ l₂, l = l₁ ++ s :: l₂ ∧
        ∀ t ∈ l₁, monthKey t = k → s.cloud < t.cloud := by
  induction l using List.reverseRecOn generalizing s with
  | nil => simp [buildMonthly, alookup] at h
  | append_singleton l a ih =>
    rw [buildMonthly_append] at h
    by_cases hk : monthKey a = k
    · cases hd : alookup (buildMonthly l) k with
      | none =>
        rw [alookup_monthlyStep_none hk hd] at h
        have hsa : s = a := by injection h with h'; exact h'.symm
        subst hsa
        have hnone := alookup_buildMonthly_eq_none.mp hd
        refine ⟨hk, ?_, l, [], rfl, ?_⟩
        · intro t ht _
          rcases List.mem_append.mp ht with ht | ht
          · exact absurd (by assumption) (hnone t ht)
          · rw [List.mem_singleton.mp ht]
        · intro t ht htk
          exact absurd htk (hnone t ht)
      | some w =>
        obtain ⟨hwk, hwmin, l₁, l₂, hsplit, hfirst⟩ := ih hd
        rw [alookup_monthlyStep_some hk hd] at h
        by_cases hc : a.cloud < w.cloud
        · rw [if_pos hc] at h
          have hsa : s = a := by injection h with h'; exact h'.symm
          subst hsa
          refine ⟨hk, ?_, l, [], rfl, ?_⟩
          · intro t ht htk
            rcases List.mem_append.mp ht with ht | ht
            · exact le_of_lt (lt_of_lt_of_le hc (hwmin t ht htk))
            · rw [List.mem_singleton.mp ht]
          · intro t ht htk
            exact lt_of_lt_of_le hc (hwmin t ht htk)
        · rw [if_neg hc] at h
          have hsw : s = w := by injection h with h'; exact h'.symm
          subst hsw
          refine ⟨hwk, ?_, l₁, l₂ ++ [a], by rw [hsplit]; simp, hfirst⟩
          intro t ht htk
          rcases List.mem_append.mp ht with ht | ht
          · exact hwmin t ht htk
          · rw [List.mem_singleton.mp ht]
            exact not_lt.mp hc
    · rw [alookup_monthlyStep_ne hk] at h
      obtain ⟨hsk, hsmin, l₁, l₂, hsplit, hfirst⟩ := ih h
      refine ⟨hsk, ?_, l₁, l₂ ++ [a], by rw [hsplit]; simp, hfirst⟩
      intro t ht htk
      rcases List.mem_append.mp ht with ht | ht
      · exact hsmin t ht htk
      · rw [List.mem_singleton.mp ht] at htk
        exact absurd htk hk

theorem alookup_perm {β : Type} {d e : List (String × β)} (hp : d.Perm e)
    (hnd : (d.map Prod.fst).Nodup) (k : String) :
    alookup d k = alookup e k := by
  have hnde : (e.map Prod.fst).Nodup := (hp.map Prod.fst).nodup_iff.mp hnd
  cases hd : alookup d k with
  | none =>
    symm
    rw [alookup_eq_none]
    intro p hpe
    exact alookup_eq_none.mp hd p (hp.mem_iff.mpr hpe)
  | some v =>
    symm
    exact mem_alookup hnde (hp.mem_iff.mp (alookup_mem hd))

theorem sorted_alookup_ext {β : Type} :
    ∀ {d e : List (String × β)},
      d.Pairwise (fun p q => strLt p.1 q.1 = true) →
      e.Pairwise (fun p q => strLt p.1 q.1 = true) →
      (∀ k, alookup d k = alookup e k) → d = e
  | [], [], _, _, _ => rfl
  | [], q :: e, _, _, hl => by
    have := hl q.1
    simp [alookup] at this
  | p :: d, [], _, _, hl => by
    have := hl p.1
    simp [alookup] at this
  | p :: d, q :: e, hd, he, hl => by
    have hdk : ∀ r ∈ d, p.1 ≠ r.1 := by
      intro r hr
      have := (List.pairwise_cons.mp hd).1 r hr
      exact ((strLt_iff _ _).mp this).2
    have hek : ∀ r ∈ e, q.1 ≠ r.1 := by
      intro r hr
      have := (List.pairwise_cons.mp he).1 r hr
      exact ((strLt_iff _ _).mp this).2
    have hpq : p.1 = q.1 := by
      by_contra hne
      have h1 : alookup (q :: e) p.1 = some p.2 := by
        rw [← hl p.1]; simp [alookup]
      have h2 : alookup (p :: d) q.1 = some q.2 := by
        rw [hl q.1]; simp [alookup]
      have hqp : q.1 ≠ p.1 := fun h => hne h.symm
      simp only [alookup, if_neg hqp] at h1
      simp only [alookup, if_neg hne] at h2
      have hp_in_e : (p.1, p.2) ∈ e := alookup_mem h1
      have hq_in_d : (q.1, q.2) ∈ d := alookup_mem h2
      have hlt1 := (List.pairwise_cons.mp he).1 _ hp_in_e
      have hlt2 := (List.pairwise_cons.mp hd).1 _ hq_in_d
      have l1 := ((strLt_iff _ _).mp hlt1).1
      have l2 := ((strLt_iff _ _).mp hlt2).1
      exact hne (strLe_antisymm l2 l1)
    have hv : p.2 = q.2 := by
      have h1 : alookup (p :: d) p.1 = some p.2 := by simp [alookup]
      have h2 : alookup (q :: e) p.1 = some q.2 := by simp [alookup, hpq.symm]
      rw [hl p.1, h2] at h1
      injection h1 with h1
      exact h1.symm
    have htl : ∀ k, alookup d k = alookup e k := by
      intro k
      by_cases hk : p.1 = k
      · have h1 : alookup d k = none := by
          rw [alookup_eq_none]
          intro r hr he'
          exact hdk r hr (hk.trans he'.symm)
        have h2 : alookup e k = none := by
          rw [alookup_eq_none]
          intro r hr he'
          exact hek r hr ((hpq.symm.trans hk).trans he'.symm)
        rw [h1, h2]
      · have h1 := hl k
        have hqk : q.1 ≠ k := fun h => hk (hpq.trans h)
        simp only [alookup, if_neg hk, if_neg hqk] at h1
        exact h1
    have : d = e :=
      sorted_alookup_ext (List.pairwise_cons.mp hd).2
        (List.pairwise_cons.mp he).2 htl
    rw [this, Prod.ext hpq hv]

theorem get_monthly_images_perm (l : List Scene) :
    (get_monthly_images l).Perm (buildMonthly l) :=
  List.perm_insertionSort keyLE (buildMonthly l)

theorem get_monthly_images_nodup_keys (l : List Scene) :
    ((get_monthly_images l).map Prod.fst).Nodup :=
  ((get_monthly_images_perm l).map Prod.fst).nodup_iff.mpr (buildMonthly_nodup l)

theorem get_monthly_images_pairwise (l : List Scene) :
    (get_monthly_images l).Pairwise fun p q => strLt p.1 q.1 = true := by
  haveI := keyLE_isTotal
  haveI := keyLE_isTrans
  have hle : (get_monthly_images l).Pairwise keyLE :=
    List.sorted_insertionSort keyLE (buildMonthly l)
  have hne : (get_monthly_images l).Pairwise fun p q => p.1 ≠ q.1 :=
    List.pairwise_map.mp (List.Nodup.sublist (List.Sublist.refl _)
      (get_monthly_images_nodup_keys l))
  exact (hle.and hne).imp fun h => (strLt_iff _ _).mpr ⟨h.1, h.2⟩

theorem alookup_get_monthly_images (l : List Scene) (k : String) :
    alookup (get_monthly_images l) k = alookup (buildMonthly l) k :=
  alookup_perm (get_monthly_images_perm l)
    (((get_monthly_images_perm l).map Prod.fst).nodup_iff.mpr
      (buildMonthly_nodup l)) k

/-- C1: for every input scene list and month key, the scene selected by
`get_monthly_images` for that key has cloud cover ≤ every input scene sharing
the key, and it occurs in the input at a position such that every
strictly earlier same-key scene has strictly greater cloud cover — i.e. under
an exact tie the earliest-encountered scene is retained. -/
theorem monthly_selected_min_cloud_first_tie (l : List Scene) (k : String)
    (s : Scene) (h : (k, s) ∈ get_monthly_images l) :
    (∀ t ∈ l, monthKey t = k → s.cloud ≤ t.cloud) ∧
      ∃ l₁ l₂, l = l₁ ++ s :: l₂ ∧ monthKey s = k ∧
        ∀ t ∈ l₁, monthKey t = k → s.cloud < t.cloud := by
  have hmem : (k, s) ∈ buildMonthly l := (get_monthly_images_perm l).mem_iff.mp h
  have hlook : alookup (buildMonthly l) k = some s :=
    mem_alookup (buildMonthly_nodup l) hmem
  obtain ⟨hk, hmin, l₁, l₂, hsplit, hfirst⟩ := alookup_buildMonthly_some hlook
  exact ⟨hmin, l₁, l₂, hsplit, hk, hfirst⟩

theorem monthly_selected_min_cloud_first_tie_witness :
    (∀ t ∈ [(⟨2020, 1, 5, 5, 0⟩ : Scene), ⟨2020, 1, 9, 2, 1⟩, ⟨2020, 2, 1, 8, 2⟩],
        monthKey t = "2020-01" → (⟨2020, 1, 9, 2, 1⟩ : Scene).cloud ≤ t.cloud) ∧
      ∃ l₁ l₂, [(⟨2020, 1, 5, 5, 0⟩ : Scene), ⟨2020, 1, 9, 2, 1⟩, ⟨2020, 2, 1, 8, 2⟩] =
          l₁ ++ (⟨2020, 1, 9, 2, 1⟩ : Scene) :: l₂ ∧
        monthKey (⟨2020, 1, 9, 2, 1⟩ : Scene) = "2020-01" ∧
        ∀ t ∈ l₁, monthKey t = "2020-01" →
          (⟨2020, 1, 9, 2, 1⟩ : Scene).cloud < t.cloud :=
  monthly_selected_min_cloud_first_tie
    [⟨2020, 1, 5, 5, 0⟩, ⟨2020, 1, 9, 2, 1⟩, ⟨2020, 2, 1, 8, 2⟩]
    "2020-01" ⟨2020, 1, 9, 2, 1⟩ (by decide)

/-- C2: for every non-empty scene list, `get_monthly_images` yields at most one
scene per month key (its key list has no duplicates), and the set of month keys
of its output equals the set of month keys of the input scenes. -/
theorem monthly_keys_unique_and_complete (l : List Scene) (_hne : l ≠ []) :
    ((get_monthly_images l).map Prod.fst).Nodup ∧
      ∀ k, k ∈ (get_monthly_images l).map Prod.fst ↔ ∃ s ∈ l, monthKey s = k := by
  refine ⟨get_monthly_images_nodup_keys l, fun k => ?_⟩
  constructor
  · intro hmem
    rcases List.mem_map.mp hmem with ⟨⟨k', s⟩, hp, hfst⟩
    have hk' : k' = k := hfst
    subst hk'
    have hlook : alookup (buildMonthly l) k' = some s :=
      mem_alookup (buildMonthly_nodup l) ((get_monthly_images_perm l).mem_iff.mp hp)
    obtain ⟨hk, _, l₁, l₂, hsplit, _⟩ := alookup_buildMonthly_some hlook
    exact ⟨s, by rw [hsplit]; simp, hk⟩
  · rintro ⟨s, hs, hk⟩
    by_contra hnot
    have hnone : alookup (get_monthly_images l) k = none := by
      rw [alookup_eq_none]
      intro p hp hfst
      exact hnot (List.mem_map.mpr ⟨p, hp, hfst⟩)
    rw [alookup_get_monthly_images, alookup_buildMonthly_eq_none] at hnone
    exact hnone s hs hk

theorem monthly_keys_unique_and_complete_witness :
    (((get_monthly_images [(⟨2020, 1, 5, 5, 0⟩ : Scene), ⟨2020, 2, 1, 8, 2⟩]).map
        Prod.fst).Nodup) ∧
      ∀ k, k ∈ (get_monthly_images
            [(⟨2020, 1, 5, 5, 0⟩ : Scene), ⟨2020, 2, 1, 8, 2⟩]).map Prod.fst ↔
          ∃ s ∈ [(⟨2020, 1, 5, 5, 0⟩ : Scene), ⟨2020, 2, 1, 8, 2⟩], monthKey s = k :=
  monthly_keys_unique_and_complete
    [⟨2020, 1, 5, 5, 0⟩, ⟨2020, 2, 1, 8, 2⟩] (by decide)

/-- C3: the sequence returned by `get_monthly_images` is strictly ascending by
month key in the code-point lexicographic string order used by Python's
`sorted`. -/
theorem monthly_output_strictly_ascending (l : List Scene) :
    (get_monthly_images l).Pairwise fun p q => strLt p.1 q.1 = true :=
  get_monthly_images_pairwise l

/-- C4, counterexample: the selector is *not* a function of the unordered set
of input scenes.  Two scenes of the same month with exactly equal cloud cover:
swapping them changes which scene is retained, so two permutations of the same
input give different outputs. -/
theorem monthly_not_permutation_invariant :
    List.Perm [(⟨2020, 1, 2, 5, 1⟩ : Scene), ⟨2020, 1, 1, 5, 0⟩]
      [⟨2020, 1, 1, 5, 0⟩, ⟨2020, 1, 2, 5, 1⟩] ∧
    get_monthly_images [(⟨2020, 1, 2, 5, 1⟩ : Scene), ⟨2020, 1, 1, 5, 0⟩] ≠
      get_monthly_images [⟨2020, 1, 1, 5, 0⟩, ⟨2020, 1, 2, 5, 1⟩] :=
  ⟨List.Perm.swap _ _ _, by decide⟩

/-- C4, amended: when no two input scenes of the same month key have exactly
equal cloud cover, the output of `get_monthly_images` is the same for every
permutation of the input list.  (Under exact ties the retained scene depends
on input order, as the counterexample shows.) -/
theorem monthly_permutation_invariant_no_ties (l l' : List Scene)
    (hties : l.Pairwise fun a b => monthKey a = monthKey b → a.cloud ≠ b.cloud)
    (hp : l'.Perm l) :
    get_monthly_images l' = get_monthly_images l := by
  apply sorted_alookup_ext (get_monthly_images_pairwise l')
    (get_monthly_images_pairwise l)
  intro k
  rw [alookup_get_monthly_images, alookup_get_monthly_images]
  cases hd : alookup (buildMonthly l) k with
  | none =>
    rw [alookup_buildMonthly_eq_none]
    intro t ht
    exact alookup_buildMonthly_eq_none.mp hd t (hp.mem_iff.mp ht)
  | some s =>
    obtain ⟨hk, hmin, l₁, l₂, hsplit, _⟩ := alookup_buildMonthly_some hd
    have hs_mem : s ∈ l := by rw [hsplit]; simp
    cases hd' : alookup (buildMonthly l') k with
    | none =>
      exact absurd hk
        (alookup_buildMonthly_eq_none.mp hd' s (hp.mem_iff.mpr hs_mem))
    | some s' =>
      obtain ⟨hk', hmin', l₁', l₂', hsplit', _⟩ := alookup_buildMonthly_some hd'
      have hs'_mem : s' ∈ l := hp.mem_iff.mp (by rw [hsplit']; simp)
      have h1 : s.cloud ≤ s'.cloud := hmin s' hs'_mem hk'
      have h2 : s'.cloud ≤ s.cloud := hmin' s (hp.mem_iff.mpr hs_mem) hk
      by_cases hss : s' = s
      · rw [hss]
      · have hsym :
            Symmetric fun a b : Scene =>
              monthKey a = monthKey b → a.cloud ≠ b.cloud := by
          intro x y hxy hkey hcl
          exact hxy hkey.symm hcl.symm
        have hR := hties.forall hsym hs'_mem hs_mem hss
        exact absurd (le_antisymm h2 h1) (hR (hk'.trans hk.symm))

theorem monthly_permutation_invariant_no_ties_witness :
    get_monthly_images [(⟨2020, 1, 2, 7, 1⟩ : Scene), ⟨2020, 1, 1, 5, 0⟩] =
      get_monthly_images [⟨2020, 1, 1, 5, 0⟩, ⟨2020, 1, 2, 7, 1⟩] :=
  monthly_permutation_invariant_no_ties
    [⟨2020, 1, 1, 5, 0⟩, ⟨2020, 1, 2, 7, 1⟩]
    [⟨2020, 1, 2, 7, 1⟩, ⟨2020, 1, 1, 5, 0⟩]
    (by simp [List.pairwise_cons]) (List.Perm.swap _ _ _)


theorem alookup_cons {β : Type} (k1 : String) (v1 : β)
    (rest : List (String × β)) (k : String) :
    alookup ((k1, v1) :: rest) k = if k1 = k then some v1 else alookup rest k :=
  rfl

theorem alookup_scaled_filter_nil (img : EEImage) :
    (((selectOptical img).map fun p => (p.1, p.2 * 0.0000275 + (-0.2))).filter
      fun q => !(img.any fun p => p.1 == q.1)) = [] := by
  rw [List.filter_eq_nil_iff]
  intro q hq
  rcases List.mem_map.mp hq with ⟨p, hp, hpq⟩
  have hpi : p ∈ img := List.mem_of_mem_filter hp
  have hq1 : q.1 = p.1 := by rw [← hpq]
  simp only [Bool.not_eq_true', Bool.not_eq_false]
  rw [List.any_eq_true]
  refine ⟨p, hpi, ?_⟩
  rw [hq1]
  simp

theorem alookup_scaled :
    ∀ {img : EEImage}, (img.map Prod.fst).Nodup →
      ∀ {n : String} {v : ℚ}, (n, v) ∈ img →
        alookup ((selectOptical img).map fun p =>
            (p.1, p.2 * 0.0000275 + (-0.2))) n =
          if isOpticalBand n then some (v * 0.0000275 + (-0.2)) else none
  | [], _, _, _, hmem => by simp at hmem
  | (pn, pv) :: rest, h, n, v, hmem => by
    have hnd : pn ∉ rest.map Prod.fst ∧ (rest.map Prod.fst).Nodup := by
      rw [List.map_cons, List.nodup_cons] at h
      exact h
    rcases List.mem_cons.mp hmem with hpv | hpv
    · have hn : pn = n := (Prod.mk.injEq _ _ _ _).mp hpv.symm |>.1
      have hv : pv = v := (Prod.mk.injEq _ _ _ _).mp hpv.symm |>.2
      subst hn
      subst hv
      by_cases hopt : isOpticalBand pn
      · rw [if_pos hopt]
        have hsel : selectOptical ((pn, pv) :: rest) =
            (pn, pv) :: selectOptical rest := by
          unfold selectOptical
          rw [List.filter_cons_of_pos (by simpa using hopt)]
        rw [hsel]
        simp only [List.map_cons]
        rw [alookup_cons, if_pos rfl]
      · rw [if_neg hopt]
        have hsel : selectOptical ((pn, pv) :: rest) = selectOptical rest := by
          unfold selectOptical
          rw [List.filter_cons_of_neg (by simpa using hopt)]
        rw [hsel, alookup_eq_none]
        intro q hq he
        rcases List.mem_map.mp hq with ⟨r, hr, hrq⟩
        have hr_opt : isOpticalBand r.1 = true := by
          have hmf := List.of_mem_filter hr
          simpa using hmf
        have hq1 : q.1 = r.1 := by rw [← hrq]
        rw [he] at hq1
        rw [← hq1] at hr_opt
        exact hopt hr_opt
    · have hne : pn ≠ n := by
        intro he
        have hmem' : n ∈ rest.map Prod.fst := List.mem_map_of_mem Prod.fst hpv
        rw [he] at hnd
        exact hnd.1 hmem'
      by_cases hopt : isOpticalBand pn
      · have hsel : selectOptical ((pn, pv) :: rest) =
            (pn, pv) :: selectOptical rest := by
          unfold selectOptical
          rw [List.filter_cons_of_pos (by simpa using hopt)]
        rw [hsel]
        simp only [List.map_cons]
        rw [alookup_cons, if_neg hne]
        exact alookup_scaled hnd.2 hpv
      · have hsel : selectOptical ((pn, pv) :: rest) = selectOptical rest := by
          unfold selectOptical
          rw [List.filter_cons_of_neg (by simpa using hopt)]
        rw [hsel]
        exact alookup_scaled hnd.2 hpv

/-- C5: for every mode name that is not a key of `VISUALIZATION_MODES`,
`apply_visualization` raises no error and yields the same render descriptor as
for the first/default recipe `'rgb'`, while the
`VISUALIZATION_MODES[mode]['description']` read in `generate_animation`
raises a lookup error (`KeyError`) for the same mode name. -/
theorem unknown_mode_fallback_vs_lookup_error (mode : String)
    (h : alookup VISUALIZATION_MODES mode = none) :
    apply_visualization mode = apply_visualization "rgb" ∧
      generate_animation_mode_description mode = Except.error mode := by
  constructor
  · unfold apply_visualization
    rw [h]
    rfl
  · unfold generate_animation_mode_description
    rw [h]

theorem unknown_mode_fallback_vs_lookup_error_witness :
    apply_visualization "thermal" = apply_visualization "rgb" ∧
      generate_animation_mode_description "thermal" = Except.error "thermal" :=
  unknown_mode_fallback_vs_lookup_error "thermal" (by decide)

/-- C6: mode `'rgb'` yields a 3-channel band-selection descriptor with exactly
the configured red/green/blue bands and display range `[0, 0.3]`; mode
`'ndvi'` yields a single-channel descriptor computed by the normalized
difference expression over the two named bands `NIR`/`RED`, display range
`[-1, 1]`, and a color ramp of exactly three stops. -/
theorem rgb_and_ndvi_descriptors :
    apply_visualization "rgb" =
        RenderResult.bandsVisualized (BandSpec.sel ["SR_B4", "SR_B3", "SR_B2"]) 0 0.3 ∧
      (["SR_B4", "SR_B3", "SR_B2"] : List String).length = 3 ∧
      apply_visualization "ndvi" =
        RenderResult.exprVisualized "(NIR - RED) / (NIR + RED)"
          (BandSpec.named [("NIR", "SR_B5"), ("RED", "SR_B4")]) (-1) 1
          ["blue", "white", "green"] ∧
      ([("NIR", "SR_B5"), ("RED", "SR_B4")] : List (String × String)).length = 2 ∧
      (["blue", "white", "green"] : List String).length = 3 :=
  ⟨rfl, rfl, rfl, rfl, rfl⟩

/-- C7: at a center latitude of 0 the longitude-degree span of the bounding
rectangle built by `calculate_region` equals its latitude-degree span, and at
latitude 60° the longitude span is exactly twice the latitude span
(`1 / cos 60° = 2`). -/
theorem region_spans_at_lat0_and_lat60 (lon scale : ℝ) :
    lonSpan (calculate_region 0 lon scale) = latSpan (calculate_region 0 lon scale) ∧
      lonSpan (calculate_region 60 lon scale) =
        2 * latSpan (calculate_region 60 lon scale) := by
  constructor
  · simp only [calculate_region, lonSpan, latSpan]
    have h0 : (0 : ℝ) * Real.pi / 180 = 0 := by ring
    rw [h0, Real.cos_zero]
    ring
  · simp only [calculate_region, lonSpan, latSpan]
    have h60 : (60 : ℝ) * Real.pi / 180 = Real.pi / 3 := by ring
    rw [h60, Real.cos_pi_div_three]
    ring

/-- C8: the call `get_coordinates "37.7749,-122.4194"` parses the string directly —
returning the `parsed` outcome, not the `geocoded` one, so the external
geocoding service is never consulted — with latitude within `1e-4` of
`37.7749` and longitude within `1e-4` of `-122.4194`. -/
theorem coordinates_parsed_directly :
    ∃ lat lon : ℚ,
      get_coordinates "37.7749,-122.4194" = CoordResult.parsed lat lon ∧
        |lat - 37.7749| ≤ 1 / 10000 ∧ |lon - (-122.4194)| ≤ 1 / 10000 := by
  refine ⟨1 * ((37 : ℚ) + 7749 / 10 ^ 4), -1 * ((122 : ℚ) + 4194 / 10 ^ 4),
    ?_, ?_, ?_⟩
  · rfl
  · norm_num
  · norm_num

/-- C9: on an image with distinct band names, `scale_landsat_c2` replaces the
value `v` of every band whose name matches `'SR_B' + one character` by
`v * 0.0000275 - 0.2` and leaves every other band unchanged (same bands, same
order). -/
theorem scale_landsat_c2_bands (img : EEImage)
    (h : (img.map Prod.fst).Nodup) :
    scale_landsat_c2 img =
      img.map fun p =>
        if isOpticalBand p.1 then (p.1, p.2 * 0.0000275 - 0.2) else p := by
  unfold scale_landsat_c2 addBandsOverwrite
  rw [alookup_scaled_filter_nil img, List.append_nil]
  apply List.map_congr_left
  rintro ⟨n, v⟩ hp
  rw [alookup_scaled h hp]
  by_cases hopt : isOpticalBand n
  · rw [if_pos hopt, if_pos hopt]
    rw [sub_eq_add_neg]
  · rw [if_neg hopt, if_neg hopt]

theorem scale_landsat_c2_bands_witness :
    scale_landsat_c2 [("SR_B4", 10000), ("QA_PIXEL", 21824)] =
      ([("SR_B4", 10000), ("QA_PIXEL", 21824)] : EEImage).map fun p =>
        if isOpticalBand p.1 then (p.1, p.2 * 0.0000275 - 0.2) else p :=
  scale_landsat_c2_bands [("SR_B4", 10000), ("QA_PIXEL", 21824)] (by decide)

/-- C10: a location string that contains a comma but whose first two
comma-separated parts do not both parse as floats raises no error from the
parsing attempt: `get_coordinates` silently falls through and geocodes the
entire original string. -/
theorem comma_non_float_geocodes_whole (location : String)
    (hc : (location.toList.any fun c => decide (c = ',')) = true)
    (hfail : parseFloat (stripEnds ((splitComma location).getD 0 "")) = none ∨
      parseFloat (stripEnds ((splitComma location).getD 1 "")) = none) :
    get_coordinates location = CoordResult.geocoded location := by
  unfold get_coordinates
  rw [if_pos hc]
  rcases hfail with h | h
  · rw [h]
  · cases hx : parseFloat (stripEnds ((splitComma location).getD 0 "")) with
    | none => rfl
    | some v => rw [h]

theorem comma_non_float_geocodes_whole_witness :
    get_coordinates "San Francisco, CA" =
      CoordResult.geocoded "San Francisco, CA" :=
  comma_non_float_geocodes_whole "San Francisco, CA" (by decide) (Or.inl rfl)
